import Mathlib

/-!
# Verification of the `mycli` REPL loop (`src/repl.rs`)

Shallow embedding of `Repl::new`, `Repl::run` and the observable behaviour of
one REPL session. The line source (`rustyline::DefaultEditor`) is modelled as
the finite trace of results its `readline` calls produce; the pluggable
`CommandHandler` is modelled as a state-transition function returning the
continue/stop boolean; `add_history_entry`'s fallibility is modelled by an
oracle saying whether each append succeeds (its `Result` is discarded by the
code via `let _ = ...`).

The run loop is embedded as a recursive function over the list of read
results, producing the chronological log of observable events (reads, history
append attempts, handler dispatches, stderr diagnostics), the final handler
state, and the value `run` returns.
-/

namespace Mycli

/-- Models Rust's `str::trim`: removes leading and trailing whitespace
characters from the string (computed on the character list so that concrete
instances reduce in the kernel). -/
def trim (s : String) : String :=
  String.mk (((s.data.dropWhile Char.isWhitespace).reverse.dropWhile Char.isWhitespace).reverse)

/-- Result of one `editor.readline(&self.prompt)` call, mirroring the four
arms matched in `Repl::run`: `Ok(line)`, `Err(ReadlineError::Interrupted)`,
`Err(ReadlineError::Eof)`, and any other `Err`. -/
inductive ReadResult where
  | ok (line : String)
  | interrupted
  | eof
  | err (e : String)
deriving DecidableEq, Repr

/-- The value `Repl::run` returns (`rustyline::Result<()>`), restricted to
the shapes the loop can produce: `Ok(())` or an error value. -/
inductive RunReturn where
  | ok
  | fatalError (e : String)
deriving DecidableEq, Repr

/-- One observable event of a run, in chronological order:
a `readline` call returning `r`; an `add_history_entry cmd` attempt whose
success is recorded (the code discards the `Result`); a call
`handler.handle(cmd)` returning `cont`; an `eprintln!` diagnostic. -/
inductive Event where
  | read (r : ReadResult)
  | histAdd (cmd : String) (succeeded : Bool)
  | dispatch (cmd : String) (cont : Bool)
  | diag (e : String)
deriving DecidableEq, Repr

/-- Outcome of running the loop against a finite read trace: either the loop
terminated and `run` returned `r`, or the modelled trace was exhausted while
the loop would still be blocked in the next `readline` (a model artifact of
truncating the infinite interactive session). -/
inductive Outcome where
  | finished (r : RunReturn)
  | outOfInput
deriving DecidableEq, Repr

/-- The body of `Repl::run` (src/repl.rs lines 228-259), embedded over a
finite trace of `readline` results. `handle` is the `CommandHandler`
(state-passing, returning the continue flag), `appendOk` says whether a given
`add_history_entry` call succeeds. Returns the event log, the final handler
state, and the outcome. Mirrors the source: trim, skip empty, best-effort
history append, dispatch, break on `false`; `Interrupted` continues; `Eof`
breaks; any other error prints a diagnostic and breaks; the function returns
`Ok(())` after the loop. -/
def runAux {H : Type} (handle : H → String → H × Bool) (appendOk : String → Bool) :
    List ReadResult → H → List Event × H × Outcome
  | [], h => ([], h, Outcome.outOfInput)
  | ReadResult.ok line :: rest, h =>
      let cmd := trim line
      if cmd.data.isEmpty then
        let r := runAux handle appendOk rest h
        (Event.read (ReadResult.ok line) :: r.1, r.2)
      else
        let cont := (handle h cmd).2
        if cont then
          let r := runAux handle appendOk rest (handle h cmd).1
          (Event.read (ReadResult.ok line) :: Event.histAdd cmd (appendOk cmd) ::
            Event.dispatch cmd cont :: r.1, r.2)
        else
          ([Event.read (ReadResult.ok line), Event.histAdd cmd (appendOk cmd),
            Event.dispatch cmd cont], (handle h cmd).1, Outcome.finished RunReturn.ok)
  | ReadResult.interrupted :: rest, h =>
      let r := runAux handle appendOk rest h
      (Event.read ReadResult.interrupted :: r.1, r.2)
  | ReadResult.eof :: _, h =>
      ([Event.read ReadResult.eof], h, Outcome.finished RunReturn.ok)
  | ReadResult.err e :: _, h =>
      ([Event.read (ReadResult.err e), Event.diag e], h, Outcome.finished RunReturn.ok)

/-- `Repl::run` on a session whose line source yields `input`. -/
def run {H : Type} (handle : H → String → H × Bool) (appendOk : String → Bool)
    (input : List ReadResult) (h : H) : List Event × H × Outcome :=
  runAux handle appendOk input h

/-- The commands passed to `handler.handle`, in chronological order. -/
def dispatched (log : List Event) : List String :=
  log.filterMap fun e =>
    match e with
    | Event.dispatch c _ => some c
    | _ => none

/-- The commands for which `add_history_entry` was attempted, in order. -/
def histAttempts (log : List Event) : List String :=
  log.filterMap fun e =>
    match e with
    | Event.histAdd c _ => some c
    | _ => none

/-- The commands actually recorded in history (successful appends), in order. -/
def history (log : List Event) : List String :=
  log.filterMap fun e =>
    match e with
    | Event.histAdd c true => some c
    | _ => none

/-- The diagnostics printed to the error stream, in order. -/
def diagnostics (log : List Event) : List String :=
  log.filterMap fun e =>
    match e with
    | Event.diag d => some d
    | _ => none

/-- How many `readline` calls the run performed. -/
def readsAttempted (log : List Event) : Nat :=
  (log.filter fun e =>
    match e with
    | Event.read _ => true
    | _ => false).length

/-- The trimmed non-blank lines of the read trace that precede its first
terminating read result, in order: the commands a run of that trace could
ever dispatch. -/
def inputCmds : List ReadResult → List String
  | [] => []
  | ReadResult.ok l :: rest =>
      if (trim l).data.isEmpty then inputCmds rest else trim l :: inputCmds rest
  | ReadResult.interrupted :: rest => inputCmds rest
  | ReadResult.eof :: _ => []
  | ReadResult.err _ :: _ => []

/-- The `Repl` struct: prompt, handler, and the owned editor (line source)
state `E` (external collaborator, kept abstract). -/
structure Repl (E H : Type) where
  prompt : String
  handler : H
  editor : E

/-- `Repl::new` (src/repl.rs lines 137-142): builds the struct from the
prompt, the handler and the result of `DefaultEditor::new()`, whose failure
is propagated by `?`. -/
def new {E H : Type} (prompt : String) (handler : H) (editorInit : Except String E) :
    Except String (Repl E H) :=
  match editorInit with
  | Except.error e => Except.error e
  | Except.ok ed => Except.ok { prompt := prompt, handler := handler, editor := ed }

/-- Checks that every `dispatch` event in a log is immediately preceded by a
`histAdd` event for the same command whose recorded success flag is the
oracle's verdict on that command. -/
def histImmediatelyBeforeDispatch (appendOk : String → Bool) : List Event → Bool
  | [] => true
  | Event.dispatch _ _ :: _ => false
  | Event.histAdd c k :: Event.dispatch c' _ :: rest =>
      decide (c = c') && decide (k = appendOk c) && histImmediatelyBeforeDispatch appendOk rest
  | _ :: rest => histImmediatelyBeforeDispatch appendOk rest


/-! ## Helper lemmas -/

/-- A line all of whose characters are whitespace trims to the empty string. -/
lemma trim_data_eq_nil_of_whitespace (line : String)
    (hw : ∀ c ∈ line.data, c.isWhitespace) : (trim line).data = [] := by
  have h1 : line.data.dropWhile Char.isWhitespace = [] :=
    List.dropWhile_eq_nil_iff.mpr hw
  simp [trim, h1]

lemma hibd_nil (a : String → Bool) : histImmediatelyBeforeDispatch a [] = true := rfl

lemma hibd_cons_read (a : String → Bool) (r : ReadResult) (l : List Event) :
    histImmediatelyBeforeDispatch a (Event.read r :: l) =
      histImmediatelyBeforeDispatch a l := rfl

lemma hibd_cons_diag (a : String → Bool) (d : String) (l : List Event) :
    histImmediatelyBeforeDispatch a (Event.diag d :: l) =
      histImmediatelyBeforeDispatch a l := rfl

lemma hibd_pair (a : String → Bool) (c : String) (k : Bool) (cc : String) (b : Bool)
    (l : List Event) :
    histImmediatelyBeforeDispatch a (Event.histAdd c k :: Event.dispatch cc b :: l) =
      (decide (c = cc) && decide (k = a c) && histImmediatelyBeforeDispatch a l) := rfl

/-- Every non-blank line produces exactly one history-append attempt, for the
same command it dispatches: the append attempts and the dispatches coincide. -/
lemma histAttempts_eq_dispatched_aux {H : Type} (handle : H → String → H × Bool)
    (appendOk : String → Bool) (input : List ReadResult) (h : H) :
    histAttempts (runAux handle appendOk input h).1 =
      dispatched (runAux handle appendOk input h).1 := by
  induction input generalizing h with
  | nil => rfl
  | cons r rest ih =>
    cases r with
    | ok line =>
      by_cases hb : (trim line).data.isEmpty = true
      · simpa [runAux, hb, histAttempts, dispatched] using ih h
      · by_cases hc : (handle h (trim line)).2 = true
        · simpa [runAux, hb, hc, histAttempts, dispatched] using ih (handle h (trim line)).1
        · simp [runAux, hb, hc, histAttempts, dispatched]
    | interrupted => simpa [runAux, histAttempts, dispatched] using ih h
    | eof => simp [runAux, histAttempts, dispatched]
    | err e => simp [runAux, histAttempts, dispatched]

/-- The commands a run dispatches are an initial segment of the trimmed
non-blank lines of its read trace, in trace order. -/
lemma dispatched_prefix_aux {H : Type} (handle : H → String → H × Bool)
    (appendOk : String → Bool) (input : List ReadResult) (h : H) :
    dispatched (runAux handle appendOk input h).1 <+: inputCmds input := by
  induction input generalizing h with
  | nil => exact ⟨[], rfl⟩
  | cons r rest ih =>
    cases r with
    | ok line =>
      by_cases hb : (trim line).data.isEmpty = true
      · simpa [runAux, hb, dispatched, inputCmds] using ih h
      · by_cases hc : (handle h (trim line)).2 = true
        · obtain ⟨t, ht⟩ := ih (handle h (trim line)).1
          refine ⟨t, ?_⟩
          simp [runAux, hb, hc, dispatched, inputCmds]
          exact ht
        · refine ⟨inputCmds rest, ?_⟩
          simp [runAux, hb, hc, dispatched, inputCmds]
    | interrupted => simpa [runAux, dispatched, inputCmds] using ih h
    | eof =>
      refine ⟨[], ?_⟩
      simp [runAux, dispatched, inputCmds]
    | err e =>
      refine ⟨[], ?_⟩
      simp [runAux, dispatched, inputCmds]

/-- In every run log, each dispatch is immediately preceded by the
history-append attempt for the same command. -/
lemma hibd_run_aux {H : Type} (handle : H → String → H × Bool)
    (appendOk : String → Bool) (input : List ReadResult) (h : H) :
    histImmediatelyBeforeDispatch appendOk (runAux handle appendOk input h).1 = true := by
  induction input generalizing h with
  | nil => rfl
  | cons r rest ih =>
    cases r with
    | ok line =>
      by_cases hb : (trim line).data.isEmpty = true
      · simpa [runAux, hb, hibd_cons_read] using ih h
      · by_cases hc : (handle h (trim line)).2 = true
        · simpa [runAux, hb, hc, hibd_cons_read, hibd_pair] using ih (handle h (trim line)).1
        · simp [runAux, hb, hc, hibd_cons_read, hibd_pair, hibd_nil]
    | interrupted => simpa [runAux, hibd_cons_read] using ih h
    | eof => simp [runAux, hibd_cons_read, hibd_nil]
    | err e => simp [runAux, hibd_cons_read, hibd_cons_diag, hibd_nil]

/-- If a run dispatched command `c`, its log contains the history-append
attempt for `c` (whose success is the oracle verdict on `c`). -/
lemma dispatch_mem_hist_mem_aux {H : Type} (handle : H → String → H × Bool)
    (appendOk : String → Bool) (input : List ReadResult) (h : H) (c : String) (b : Bool)
    (hmem : Event.dispatch c b ∈ (runAux handle appendOk input h).1) :
    Event.histAdd c (appendOk c) ∈ (runAux handle appendOk input h).1 := by
  induction input generalizing h with
  | nil => simp [runAux] at hmem
  | cons r rest ih =>
    cases r with
    | ok line =>
      by_cases hb : (trim line).data.isEmpty = true
      · simp [runAux, hb] at hmem ⊢
        exact ih h hmem
      · by_cases hc : (handle h (trim line)).2 = true
        · simp [runAux, hb, hc] at hmem ⊢
          rcases hmem with ⟨hcc, -⟩ | h4
          · subst hcc
            simp
          · exact Or.inr (ih (handle h (trim line)).1 h4)
        · simp [runAux, hb, hc] at hmem ⊢
          obtain ⟨hcc, -⟩ := hmem
          subst hcc
          simp
    | interrupted =>
      simp [runAux] at hmem ⊢
      exact ih h hmem
    | eof => simp [runAux] at hmem
    | err e => simp [runAux] at hmem


/-! ## Claim theorems -/

/-- Claim C1 (code evaluation at the failing input): with a handler that
always continues and a read trace whose third read fails with an error that
is neither `Interrupted` nor `Eof`, the run performs the two dispatches,
prints the diagnostic — and then returns `Ok(())`, not an error value: the
`Err(err)` arm of `Repl::run` only prints and breaks, so the underlying
cause is never propagated to the caller, contrary to the spec and to the
function doc comment, which promise an error return for a critical readline
error. -/
theorem run_other_error_prints_diag_but_returns_ok :
    (runAux (fun (_ : Unit) _ => ((), true)) (fun _ => true)
        [ReadResult.ok "a", ReadResult.ok "b", ReadResult.err "io failure"] ()).2.2 =
      Outcome.finished RunReturn.ok
    ∧ diagnostics (runAux (fun (_ : Unit) _ => ((), true)) (fun _ => true)
        [ReadResult.ok "a", ReadResult.ok "b", ReadResult.err "io failure"] ()).1 =
      ["io failure"]
    ∧ dispatched (runAux (fun (_ : Unit) _ => ((), true)) (fun _ => true)
        [ReadResult.ok "a", ReadResult.ok "b", ReadResult.err "io failure"] ()).1 =
      ["a", "b"]
    ∧ ∀ e : String,
        (runAux (fun (_ : Unit) _ => ((), true)) (fun _ => true)
          [ReadResult.ok "a", ReadResult.ok "b", ReadResult.err "io failure"] ()).2.2 ≠
        Outcome.finished (RunReturn.fatalError e) := by
  refine ⟨by decide, by decide, by decide, ?_⟩
  intro e hcontra
  have hok : (runAux (fun (_ : Unit) _ => ((), true)) (fun _ => true)
      [ReadResult.ok "a", ReadResult.ok "b", ReadResult.err "io failure"] ()).2.2 =
      Outcome.finished RunReturn.ok := by decide
  rw [hok] at hcontra
  simp at hcontra

/-- Claim C2: a line consisting only of whitespace characters (including the
empty string) is a silent no-op: the run on it equals the run on the rest of
the trace with only the `readline` call prepended — no handler invocation,
no history-append attempt, same final handler state and outcome. -/
theorem run_blank_line_is_noop {H : Type} (handle : H → String → H × Bool)
    (appendOk : String → Bool) (line : String) (rest : List ReadResult) (h : H)
    (hw : ∀ c ∈ line.data, c.isWhitespace) :
    runAux handle appendOk (ReadResult.ok line :: rest) h =
      (Event.read (ReadResult.ok line) :: (runAux handle appendOk rest h).1,
       (runAux handle appendOk rest h).2.1, (runAux handle appendOk rest h).2.2) := by
  simp [runAux, trim_data_eq_nil_of_whitespace line hw]

/-- Witness for C2 at the concrete blank line `"  "`. -/
theorem run_blank_line_is_noop_witness :
    runAux (fun (_ : Unit) _ => ((), true)) (fun _ => true) [ReadResult.ok "  "] () =
      (Event.read (ReadResult.ok "  ") ::
        (runAux (fun (_ : Unit) _ => ((), true)) (fun _ => true) [] ()).1,
       (runAux (fun (_ : Unit) _ => ((), true)) (fun _ => true) [] ()).2.1,
       (runAux (fun (_ : Unit) _ => ((), true)) (fun _ => true) [] ()).2.2) :=
  run_blank_line_is_noop (fun (_ : Unit) _ => ((), true)) (fun _ => true) "  " [] ()
    (by decide)

/-- Claim C3: (i) history-append attempts coincide with dispatches (each
dispatched command is appended exactly once, in the same order); (ii) the
dispatched commands are an initial segment of the trimmed non-blank input
lines in exactly the order they were read (strict FIFO); (iii) a line with at
least one non-whitespace character is dispatched with precisely its
whitespace-stripped text, after exactly one history-append attempt. -/
theorem run_dispatches_trimmed_fifo {H : Type} (handle : H → String → H × Bool)
    (appendOk : String → Bool) (input : List ReadResult) (h : H)
    (line : String) (rest : List ReadResult) (h0 : H)
    (hne : (trim line).data.isEmpty = false) :
    (histAttempts (runAux handle appendOk input h).1 =
      dispatched (runAux handle appendOk input h).1)
    ∧ dispatched (runAux handle appendOk input h).1 <+: inputCmds input
    ∧ (runAux handle appendOk (ReadResult.ok line :: rest) h0).1 =
        Event.read (ReadResult.ok line) ::
        Event.histAdd (trim line) (appendOk (trim line)) ::
        Event.dispatch (trim line) (handle h0 (trim line)).2 ::
        (if (handle h0 (trim line)).2 then
          (runAux handle appendOk rest (handle h0 (trim line)).1).1
         else []) := by
  refine ⟨histAttempts_eq_dispatched_aux handle appendOk input h,
          dispatched_prefix_aux handle appendOk input h, ?_⟩
  by_cases hc : (handle h0 (trim line)).2 = true
  · simp [runAux, hne, hc]
  · simp [runAux, hne, hc]

/-- Witness for C3 on Scenario A's trace, with the step part at the line
`" help "`. -/
theorem run_dispatches_trimmed_fifo_witness :
    (histAttempts (runAux (fun (_ : Unit) c => ((), c != "quit")) (fun _ => true)
        [ReadResult.ok "  ", ReadResult.ok "help", ReadResult.interrupted,
         ReadResult.ok "quit"] ()).1 =
      dispatched (runAux (fun (_ : Unit) c => ((), c != "quit")) (fun _ => true)
        [ReadResult.ok "  ", ReadResult.ok "help", ReadResult.interrupted,
         ReadResult.ok "quit"] ()).1)
    ∧ dispatched (runAux (fun (_ : Unit) c => ((), c != "quit")) (fun _ => true)
        [ReadResult.ok "  ", ReadResult.ok "help", ReadResult.interrupted,
         ReadResult.ok "quit"] ()).1 <+:
      inputCmds [ReadResult.ok "  ", ReadResult.ok "help", ReadResult.interrupted,
         ReadResult.ok "quit"]
    ∧ (runAux (fun (_ : Unit) c => ((), c != "quit")) (fun _ => true)
        [ReadResult.ok " help "] ()).1 =
        Event.read (ReadResult.ok " help ") ::
        Event.histAdd (trim " help ") ((fun _ => true) (trim " help ")) ::
        Event.dispatch (trim " help ")
          ((fun (_ : Unit) c => ((), c != "quit")) () (trim " help ")).2 ::
        (if ((fun (_ : Unit) c => ((), c != "quit")) () (trim " help ")).2 then
          (runAux (fun (_ : Unit) c => ((), c != "quit")) (fun _ => true) []
            ((fun (_ : Unit) c => ((), c != "quit")) () (trim " help ")).1).1
         else []) :=
  run_dispatches_trimmed_fifo (fun (_ : Unit) c => ((), c != "quit")) (fun _ => true)
    [ReadResult.ok "  ", ReadResult.ok "help", ReadResult.interrupted, ReadResult.ok "quit"]
    () " help " [] () (by decide)

/-- Claim C4: an `Interrupted` read is absorbed: the run continues on the
rest of the trace with only the `readline` call logged (no dispatch, no
history entry, no termination), and when the next read yields a line with
non-whitespace content, that line's trimmed text is the very next dispatched
command. -/
theorem run_interrupt_noop_and_next_dispatch {H : Type} (handle : H → String → H × Bool)
    (appendOk : String → Bool) (rest rest2 : List ReadResult) (line : String) (h h2 : H)
    (hb : (trim line).data.isEmpty = false) :
    runAux handle appendOk (ReadResult.interrupted :: rest) h =
      (Event.read ReadResult.interrupted :: (runAux handle appendOk rest h).1,
       (runAux handle appendOk rest h).2.1, (runAux handle appendOk rest h).2.2)
    ∧ (dispatched (runAux handle appendOk
        (ReadResult.interrupted :: ReadResult.ok line :: rest2) h2).1).head? =
        some (trim line) := by
  constructor
  · simp [runAux]
  · by_cases hc : (handle h2 (trim line)).2 = true
    · simp [runAux, hb, hc, dispatched]
    · simp [runAux, hb, hc, dispatched]

/-- Witness for C4: one interrupt, then the line `"ok"`. -/
theorem run_interrupt_noop_and_next_dispatch_witness :
    runAux (fun (_ : Unit) _ => ((), true)) (fun _ => true) [ReadResult.interrupted] () =
      (Event.read ReadResult.interrupted ::
        (runAux (fun (_ : Unit) _ => ((), true)) (fun _ => true) [] ()).1,
       (runAux (fun (_ : Unit) _ => ((), true)) (fun _ => true) [] ()).2.1,
       (runAux (fun (_ : Unit) _ => ((), true)) (fun _ => true) [] ()).2.2)
    ∧ (dispatched (runAux (fun (_ : Unit) _ => ((), true)) (fun _ => true)
        [ReadResult.interrupted, ReadResult.ok "ok"] ()).1).head? = some (trim "ok") :=
  run_interrupt_noop_and_next_dispatch (fun (_ : Unit) _ => ((), true)) (fun _ => true)
    [] [] "ok" () () (by decide)

/-- Claim C5: an `Eof` read terminates the run at once with the success
return value, whatever would have followed in the trace; in particular on
the trace consisting of `Eof` alone nothing is ever dispatched. -/
theorem run_eof_terminates_ok {H : Type} (handle : H → String → H × Bool)
    (appendOk : String → Bool) (rest : List ReadResult) (h : H) :
    runAux handle appendOk (ReadResult.eof :: rest) h =
      ([Event.read ReadResult.eof], h, Outcome.finished RunReturn.ok)
    ∧ dispatched (runAux handle appendOk [ReadResult.eof] h).1 = [] := by
  constructor
  · simp [runAux]
  · simp [runAux, dispatched]

/-- Claim C6: when the handler answers `false` (stop) for the trimmed line,
the run terminates immediately with the success return value: the log is
exactly the read, the history-append attempt and the final dispatch — only
one `readline` call is ever made, so no read after the stopping command is
attempted, regardless of what the rest of the trace holds. -/
theorem run_stop_terminates_immediately {H : Type} (handle : H → String → H × Bool)
    (appendOk : String → Bool) (line : String) (rest : List ReadResult) (h : H)
    (hne : (trim line).data.isEmpty = false)
    (hstop : (handle h (trim line)).2 = false) :
    runAux handle appendOk (ReadResult.ok line :: rest) h =
      ([Event.read (ReadResult.ok line), Event.histAdd (trim line) (appendOk (trim line)),
        Event.dispatch (trim line) false], (handle h (trim line)).1,
        Outcome.finished RunReturn.ok)
    ∧ readsAttempted (runAux handle appendOk (ReadResult.ok line :: rest) h).1 = 1 := by
  constructor
  · simp [runAux, hne, hstop]
  · simp [runAux, hne, hstop, readsAttempted]

/-- Witness for C6: handler that stops on everything, line `"quit"` with
another line still pending in the trace. -/
theorem run_stop_terminates_immediately_witness :
    runAux (fun (_ : Unit) _ => ((), false)) (fun _ => true)
      [ReadResult.ok "quit", ReadResult.ok "later"] () =
      ([Event.read (ReadResult.ok "quit"),
        Event.histAdd (trim "quit") ((fun _ => true) (trim "quit")),
        Event.dispatch (trim "quit") false],
        ((fun (_ : Unit) _ => ((), false)) () (trim "quit")).1,
        Outcome.finished RunReturn.ok)
    ∧ readsAttempted (runAux (fun (_ : Unit) _ => ((), false)) (fun _ => true)
        [ReadResult.ok "quit", ReadResult.ok "later"] ()).1 = 1 :=
  run_stop_terminates_immediately (fun (_ : Unit) _ => ((), false)) (fun _ => true)
    "quit" [ReadResult.ok "later"] () (by decide) (by decide)

/-- Claim C7: the history append is best-effort — the code discards its
result, so runs that differ only in which appends succeed dispatch exactly
the same commands and end in the same handler state and outcome: an append
failure neither aborts the session nor prevents any dispatch. -/
theorem run_history_append_best_effort {H : Type} (handle : H → String → H × Bool)
    (a1 a2 : String → Bool) (input : List ReadResult) (h : H) :
    dispatched (runAux handle a1 input h).1 = dispatched (runAux handle a2 input h).1
    ∧ (runAux handle a1 input h).2 = (runAux handle a2 input h).2 := by
  induction input generalizing h with
  | nil => exact ⟨rfl, rfl⟩
  | cons r rest ih =>
    cases r with
    | ok line =>
      by_cases hb : (trim line).data.isEmpty = true
      · simpa [runAux, hb, dispatched] using ih h
      · by_cases hc : (handle h (trim line)).2 = true
        · simpa [runAux, hb, hc, dispatched] using ih (handle h (trim line)).1
        · simp [runAux, hb, hc, dispatched]
    | interrupted => simpa [runAux, dispatched] using ih h
    | eof => simp [runAux]
    | err e => simp [runAux]

/-- Claim C8: `Repl::new` propagates an editor-initialization failure: the
construction returns exactly that error, and no `Repl` value (through which
`run` could be reached) is ever produced. -/
theorem new_fails_when_editor_fails (E H : Type) (prompt : String) (handler : H)
    (e : String) :
    @new E H prompt handler (Except.error e) = Except.error e
    ∧ ∀ r : Repl E H, @new E H prompt handler (Except.error e) ≠ Except.ok r := by
  constructor
  · rfl
  · intro r hcontra
    simp [new] at hcontra

/-- Claim C9: no terminating run ever returns an error value: whatever ends
the loop (handler stop, `Eof`, or any other read error), `Repl::run` returns
`Ok(())` — the only other possibility is the model artifact of the finite
trace running out while the loop still awaits input. -/
theorem run_never_returns_err {H : Type} (handle : H → String → H × Bool)
    (appendOk : String → Bool) (input : List ReadResult) (h : H) :
    (runAux handle appendOk input h).2.2 = Outcome.finished RunReturn.ok ∨
    (runAux handle appendOk input h).2.2 = Outcome.outOfInput := by
  induction input generalizing h with
  | nil => exact Or.inr rfl
  | cons r rest ih =>
    cases r with
    | ok line =>
      by_cases hb : (trim line).data.isEmpty = true
      · simpa [runAux, hb] using ih h
      · by_cases hc : (handle h (trim line)).2 = true
        · simpa [runAux, hb, hc] using ih (handle h (trim line)).1
        · simp [runAux, hb, hc]
    | interrupted => simpa [runAux] using ih h
    | eof => simp [runAux]
    | err e => simp [runAux]

/-- Claim C10: in every run log each dispatch is immediately preceded by the
history-append attempt for the same command (the append happens before the
handler is invoked), and whenever the append oracle accepts a dispatched
command — in particular the final command of a stop-terminated session — that
command is in the recorded history. -/
theorem run_hist_append_precedes_dispatch {H : Type} (handle : H → String → H × Bool)
    (appendOk : String → Bool) (input : List ReadResult) (h : H) (c : String) (b : Bool)
    (hmem : Event.dispatch c b ∈ (runAux handle appendOk input h).1)
    (hok : appendOk c = true) :
    histImmediatelyBeforeDispatch appendOk (runAux handle appendOk input h).1 = true
    ∧ c ∈ history (runAux handle appendOk input h).1 := by
  refine ⟨hibd_run_aux handle appendOk input h, ?_⟩
  have hh := dispatch_mem_hist_mem_aux handle appendOk input h c b hmem
  rw [hok] at hh
  simp only [history]
  exact List.mem_filterMap.mpr ⟨Event.histAdd c true, hh, rfl⟩

/-- Witness for C10: a stop-terminated session on the line `" quit "` has
`"quit"` in its history, appended right before its dispatch. -/
theorem run_hist_append_precedes_dispatch_witness :
    histImmediatelyBeforeDispatch (fun _ => true)
      (runAux (fun (_ : Unit) _ => ((), false)) (fun _ => true)
        [ReadResult.ok " quit "] ()).1 = true
    ∧ "quit" ∈ history (runAux (fun (_ : Unit) _ => ((), false)) (fun _ => true)
        [ReadResult.ok " quit "] ()).1 :=
  run_hist_append_precedes_dispatch (fun (_ : Unit) _ => ((), false)) (fun _ => true)
    [ReadResult.ok " quit "] () "quit" false (by decide) (by decide)

end Mycli
